import Mathlib

/-!
Verification development for the DevMark marketplace backend.

The definitions below are a shallow embedding of the project-lifecycle,
marketplace and payment-reconciliation handlers of the repository:

- `buyProject`, `createListing`, `updateListing`, `deleteListing` embed
  the marketplace controller (marketplace.controller.js).
- `updateProject`, `submitProject`, `approveProject`, `rejectProject`,
  `listVisible`, `byIdVisible` embed project.controller.js.
- `createOrder`, `processPayment`, `handleWebhook` embed
  payment.controller.js together with the mongoose session semantics used
  by processPayment.

The document store is modelled as an association list from ids to
documents; `findById` and `saveById` are the embedding of mongoose
findById and document save (save overwrites the stored document with the
in-memory copy, keyed by id, with no further condition).

The source carries two Project schema shapes (a flat one used by the
marketplace and payment controllers, and a nested basicInfo / metadata /
marketplace one used by project.controller.js).  The `Project` structure
below is the union of the fields the embedded handlers read or write:
flat fields keep their source names, nested fields are prefixed with the
name of their subdocument (`metadata_status` stands for metadata.status,
`marketplace_isForSale` for marketplace.isForSale, and so on).  Schema
fields no embedded handler touches (media, tags, platform, contact,
timestamps, version) are omitted; they influence none of the modelled
behaviour.  Dates are modelled as `Nat` instants passed in as a `now`
parameter; ids are `Nat` (the ObjectId validity pre-checks of the source
are outside the model because every `Nat` is a well-formed id).
-/

namespace DevMark

/-- Project lifecycle status values, the union of the enums of the flat
schema (draft, submitted, approved, rejected) and the nested schema
(draft, pending, submitted, approved, rejected). -/
inductive Status
  | draft
  | pending
  | submitted
  | approved
  | rejected
deriving DecidableEq

/-- User roles from User.model.js. -/
inductive Role
  | buyer
  | seller
  | admin
deriving DecidableEq

/-- The caller identity resolved by the auth middleware: req.user reduced
to the fields the embedded handlers read. -/
structure User where
  id : Nat
  role : Role
deriving DecidableEq

/-- Project document: union of the flat-schema fields and the nested
metadata / marketplace / basicInfo fields of Project.model.js that the
embedded handlers read or write. -/
structure Project where
  owner : Nat
  title : String
  description : String
  price : Nat
  deliveryTime : Nat
  status : Status
  reviewedBy : Option Nat
  isForSale : Bool
  soldTo : Option Nat
  soldAt : Option Nat
  basicInfo_title : String
  basicInfo_description : String
  basicInfo_category : String
  metadata_status : Status
  metadata_submissionDate : Option Nat
  metadata_rejectionReason : Option String
  metadata_reviewedAt : Option Nat
  marketplace_isForSale : Bool
  marketplace_price : Nat
  marketplace_soldTo : Option Nat
  marketplace_soldAt : Option Nat
deriving DecidableEq

/-- Order status enum from Order.model.js. -/
inductive OrderStatus
  | pending
  | processing
  | paid
  | failed
  | refunded
deriving DecidableEq

/-- Order document, reduced to the fields the payment handlers read or
write (billing details kept as an opaque string). -/
structure Order where
  user : Nat
  project : Nat
  totalAmount : Nat
  currency : String
  status : OrderStatus
  transactionId : Option String
  billingDetails : String
  paymentGatewayLogs : Option String
deriving DecidableEq

/-- Association-list lookup, the embedding of Model.findById. -/
def findById {α : Type} (db : List (Nat × α)) (i : Nat) : Option α :=
  (db.find? (fun e => e.1 == i)).map (fun e => e.2)

/-- Association-list overwrite, the embedding of document save for a
fetched document: the stored document with the same id is replaced with
the in-memory copy; ids that are absent are left untouched. -/
def saveById {α : Type} (db : List (Nat × α)) (i : Nat) (x : α) : List (Nat × α) :=
  db.map (fun e => if e.1 = i then (i, x) else e)

abbrev ProjectStore := List (Nat × Project)
abbrev OrderStore := List (Nat × Order)

/-! ## Marketplace controller: buyProject -/

/-- Return paths of buyProject in marketplace.controller.js, one
constructor per source return. -/
inductive BuyOutcome
  | notFound
  | selfPurchase
  | notForSale
  | alreadySold
  | success
deriving DecidableEq

/-- HTTP status the source attaches to each buyProject return path. -/
def BuyOutcome.httpStatus : BuyOutcome → Nat
  | .notFound => 404
  | .selfPurchase => 400
  | .notForSale => 400
  | .alreadySold => 400
  | .success => 200

/-- Classification of the 400-with-message responses of buyProject into
the spec taxonomy of section 7: not-for-sale and already-sold are
valid-request-wrong-entity-state failures, hence Conflict-class. -/
def BuyOutcome.isConflictClass : BuyOutcome → Bool
  | .notForSale => true
  | .alreadySold => true
  | _ => false

/-- Classification per the spec taxonomy: the self-purchase rejection is
the BadRequest-class failure of the purchase path. -/
def BuyOutcome.isBadRequestClass : BuyOutcome → Bool
  | .selfPurchase => true
  | _ => false

/-- The in-memory checks buyProject performs on the fetched document:
owner check, isForSale check, soldTo check, in source order. -/
def buyCheck (snapshot : Option Project) (callerId : Nat) : BuyOutcome :=
  match snapshot with
  | none => .notFound
  | some p =>
    if p.owner = callerId then .selfPurchase
    else if p.isForSale = false then .notForSale
    else if p.soldTo.isSome then .alreadySold
    else .success

/-- The document buyProject writes on success: soldTo is the caller,
soldAt is now, isForSale is cleared. -/
def soldCopy (p : Project) (callerId now : Nat) : Project :=
  { p with soldTo := some callerId, soldAt := some now, isForSale := false }

/-- The write phase of buyProject applied to a snapshot read earlier:
the checks run on the snapshot, and on success the modified snapshot is
saved over whatever the store holds now (mongoose save has no further
condition).  Splitting the handler at its await boundary this way lets
serial and overlapped schedules share one embedding. -/
def buyFinish (db : ProjectStore) (snapshot : Option Project)
    (callerId pid now : Nat) : BuyOutcome × ProjectStore :=
  match snapshot with
  | none => (.notFound, db)
  | some p =>
    match buyCheck (some p) callerId with
    | .success => (.success, saveById db pid (soldCopy p callerId now))
    | outcome => (outcome, db)

/-- buyProject from marketplace.controller.js: find the project, reject
self-purchase, not-for-sale and already-sold, otherwise mark sold and
save.  One handler run with no interleaving: the read feeds the write
directly. -/
def buyProject (db : ProjectStore) (callerId pid now : Nat) :
    BuyOutcome × ProjectStore :=
  buyFinish db (findById db pid) callerId pid now

/-- Serial execution of one buyProject handler per buyer, in order; this
is the schedule where the store serializes the attempts. -/
def runBuyers (db : ProjectStore) (pid now : Nat) :
    List Nat → List BuyOutcome × ProjectStore
  | [] => ([], db)
  | b :: bs =>
    let step := buyProject db b pid now
    let rest := runBuyers step.2 pid now bs
    (step.1 :: rest.1, rest.2)

/-- An overlapped schedule of two buyProject handlers: both read before
either writes, which the findById-then-save sequence of the source
permits, then both write phases run in order. -/
def buyInterleaved2 (db : ProjectStore) (a b pid now : Nat) :
    (BuyOutcome × BuyOutcome) × ProjectStore :=
  let snap := findById db pid
  let stepA := buyFinish db snap a pid now
  let stepB := buyFinish stepA.2 snap b pid now
  ((stepA.1, stepB.1), stepB.2)

/-! ## Marketplace controller: listings -/

/-- Return paths of createListing. -/
inductive ListingOutcome
  | notFound
  | forbidden
  | notApproved
  | alreadyListed
  | alreadySold
  | notListed
  | success
deriving DecidableEq

/-- createListing from marketplace.controller.js: only the owner may
list, only a flat-status-approved project, not already for sale, not
already sold; on success isForSale is set. -/
def createListing (db : ProjectStore) (callerId pid : Nat) :
    ListingOutcome × ProjectStore :=
  match findById db pid with
  | none => (.notFound, db)
  | some p =>
    if p.owner ≠ callerId then (.forbidden, db)
    else if p.status ≠ .approved then (.notApproved, db)
    else if p.isForSale then (.alreadyListed, db)
    else if p.soldTo.isSome then (.alreadySold, db)
    else (.success, saveById db pid { p with isForSale := true })

/-- Client-supplied fields of the updateListing body, each optional. -/
structure ListingUpdate where
  title : Option String
  description : Option String
  price : Option Nat
  deliveryTime : Option Nat
deriving DecidableEq

/-- JavaScript truthiness of an optional string, as used by the
if-title and if-description guards of the source (absent or empty means
falsy). -/
def truthyStr : Option String → Bool
  | none => false
  | some s => s ≠ ""

/-- Field application of an updateListing body: title and description
behind JavaScript truthiness, price and deliveryTime behind
not-undefined checks, exactly the four assignments of the source. -/
def listingPatch (p : Project) (u : ListingUpdate) : Project :=
  let p1 := if truthyStr u.title then { p with title := u.title.getD p.title } else p
  let p2 := if truthyStr u.description then
      { p1 with description := u.description.getD p1.description } else p1
  let p3 := match u.price with
    | some v => { p2 with price := v }
    | none => p2
  match u.deliveryTime with
  | some v => { p3 with deliveryTime := v }
  | none => p3

/-- updateListing from marketplace.controller.js: owner only, listed and
unsold only; mutates title, description, price and deliveryTime only. -/
def updateListing (db : ProjectStore) (callerId pid : Nat)
    (u : ListingUpdate) : ListingOutcome × ProjectStore :=
  match findById db pid with
  | none => (.notFound, db)
  | some p =>
    if p.owner ≠ callerId then (.forbidden, db)
    else if p.isForSale = false then (.notListed, db)
    else if p.soldTo.isSome then (.alreadySold, db)
    else (.success, saveById db pid (listingPatch p u))

/-- deleteListing from marketplace.controller.js: owner or admin; clears
isForSale without deleting the project. -/
def deleteListing (db : ProjectStore) (caller : User) (pid : Nat) :
    ListingOutcome × ProjectStore :=
  match findById db pid with
  | none => (.notFound, db)
  | some p =>
    if p.owner ≠ caller.id ∧ caller.role ≠ .admin then (.forbidden, db)
    else (.success, saveById db pid { p with isForSale := false })

/-! ## Project controller: lifecycle transitions -/

/-- Client-supplied basicInfo fields of an updateProject body. -/
structure BasicInfoUpdate where
  title : Option String
  description : Option String
  category : Option String
deriving DecidableEq

/-- Client-supplied marketplace fields of an updateProject body; the
source copies isForSale and price into the stored document whenever they
are present. -/
structure MarketplaceUpdate where
  isForSale : Option Bool
  price : Option Nat
deriving DecidableEq

/-- Parsed projectData of an updateProject request; subdocuments that
are absent are skipped wholesale by the source, hence the Options. -/
structure ProjectUpdate where
  basicInfo : Option BasicInfoUpdate
  marketplace : Option MarketplaceUpdate
deriving DecidableEq

/-- Return paths shared by updateProject and submitProject. -/
inductive EditOutcome
  | notFound
  | forbidden
  | wrongStatus
  | success
deriving DecidableEq

/-- HTTP status of each updateProject and submitProject return path. -/
def EditOutcome.httpStatus : EditOutcome → Nat
  | .notFound => 404
  | .forbidden => 403
  | .wrongStatus => 400
  | .success => 200

/-- Application of the basicInfo part of an updateProject body, guarded
by JavaScript truthiness exactly as in the source. -/
def applyBasicInfo (p : Project) : Option BasicInfoUpdate → Project
  | none => p
  | some b =>
    let p1 := if truthyStr b.title then
        { p with basicInfo_title := b.title.getD p.basicInfo_title } else p
    let p2 := if truthyStr b.description then
        { p1 with basicInfo_description := b.description.getD p1.basicInfo_description } else p1
    if truthyStr b.category then
        { p2 with basicInfo_category := b.category.getD p2.basicInfo_category } else p2

/-- Application of the marketplace part of an updateProject body; the
isForSale and price guards are not-undefined checks in the source, hence
plain Option matches here. -/
def applyMarketplace (p : Project) : Option MarketplaceUpdate → Project
  | none => p
  | some m =>
    let p1 := match m.isForSale with
      | some v => { p with marketplace_isForSale := v }
      | none => p
    match m.price with
    | some v => { p1 with marketplace_price := v }
    | none => p1

/-- The full document rewrite performed by a successful updateProject:
the basicInfo and marketplace assignments, then the rejected-to-pending
move with its reason cleared. -/
def editPatch (p : Project) (u : ProjectUpdate) : Project :=
  let p1 := applyBasicInfo p u.basicInfo
  let p2 := applyMarketplace p1 u.marketplace
  if p.metadata_status = .rejected then
    { p2 with metadata_rejectionReason := none, metadata_status := .pending }
  else p2

/-- updateProject from project.controller.js: owner only; editable only
while metadata.status is draft, pending or rejected; applies the
client-supplied basicInfo and marketplace fields (including
marketplace.isForSale); a rejected project moves back to pending with
its rejection reason cleared. -/
def updateProject (db : ProjectStore) (callerId pid : Nat)
    (u : ProjectUpdate) : EditOutcome × ProjectStore :=
  match findById db pid with
  | none => (.notFound, db)
  | some p =>
    if callerId ≠ p.owner then (.forbidden, db)
    else if p.metadata_status ≠ .draft ∧ p.metadata_status ≠ .pending ∧
        p.metadata_status ≠ .rejected then (.wrongStatus, db)
    else (.success, saveById db pid (editPatch p u))

/-- submitProject from project.controller.js: owner only; draft, pending
or rejected only; sets metadata.status submitted, stamps the submission
date, clears the rejection reason. -/
def submitProject (db : ProjectStore) (callerId pid now : Nat) :
    EditOutcome × ProjectStore :=
  match findById db pid with
  | none => (.notFound, db)
  | some p =>
    if callerId ≠ p.owner then (.forbidden, db)
    else if p.metadata_status ≠ .draft ∧ p.metadata_status ≠ .pending ∧
        p.metadata_status ≠ .rejected then (.wrongStatus, db)
    else
      (.success, saveById db pid
        { p with metadata_status := .submitted,
                 metadata_submissionDate := some now,
                 metadata_rejectionReason := none })

/-- Return paths of approveProject and rejectProject. -/
inductive ReviewOutcome
  | notFound
  | missingReason
  | wrongStatus
  | success
deriving DecidableEq

/-- HTTP status of each approveProject and rejectProject return path;
the wrong-status rejection is the Conflict-class failure of the spec
taxonomy, surfaced as 400 with a message naming the current status. -/
def ReviewOutcome.httpStatus : ReviewOutcome → Nat
  | .notFound => 404
  | .missingReason => 400
  | .wrongStatus => 400
  | .success => 200

/-- Classification per the spec taxonomy of section 7: the wrong-status
rejection of approve and reject is a valid-request-wrong-entity-state
failure, hence Conflict-class. -/
def ReviewOutcome.isConflictClass : ReviewOutcome → Bool
  | .wrongStatus => true
  | _ => false

/-- approveProject from project.controller.js: only a submitted project
may be approved; on success metadata.status becomes approved, the review
time and reviewer are stamped, and the rejection reason is cleared.  The
admin-role gate lives in the route middleware, so the caller here is the
admin let through by the route. -/
def approveProject (db : ProjectStore) (adminId pid now : Nat) :
    ReviewOutcome × ProjectStore :=
  match findById db pid with
  | none => (.notFound, db)
  | some p =>
    if p.metadata_status ≠ .submitted then (.wrongStatus, db)
    else
      (.success, saveById db pid
        { p with metadata_status := .approved,
                 metadata_reviewedAt := some now,
                 reviewedBy := some adminId,
                 metadata_rejectionReason := none })

/-- rejectProject from project.controller.js: a non-empty reason is
required, only a submitted project may be rejected; on success the
status becomes rejected with the reason recorded. -/
def rejectProject (db : ProjectStore) (adminId pid now : Nat)
    (reason : String) : ReviewOutcome × ProjectStore :=
  if reason.trim = "" then (.missingReason, db)
  else
    match findById db pid with
    | none => (.notFound, db)
    | some p =>
      if p.metadata_status ≠ .submitted then (.wrongStatus, db)
      else
        (.success, saveById db pid
          { p with metadata_status := .rejected,
                   metadata_reviewedAt := some now,
                   reviewedBy := some adminId,
                   metadata_rejectionReason := some reason })

/-! ## Project controller: read visibility -/

/-- Access-control part of the getAllProjects query: a public caller
matches projects whose flat status or nested metadata.status is
approved; a non-admin caller additionally matches projects they own; an
admin matches everything.  The remaining query conditions are
client-chosen filters orthogonal to the visibility rule. -/
def listVisible (caller : Option User) (p : Project) : Bool :=
  match caller with
  | none => p.status = .approved ∨ p.metadata_status = .approved
  | some u =>
    if u.role = .admin then true
    else p.status = .approved ∨ p.metadata_status = .approved ∨ p.owner = u.id

/-- Authorization check of getProjectById: the approved test reads only
the nested metadata.status; owners and admins always pass. -/
def byIdVisible (caller : Option User) (p : Project) : Bool :=
  let isAdmin := match caller with
    | some u => u.role = .admin
    | none => false
  let isOwner := match caller with
    | some u => u.id = p.owner
    | none => false
  let isApproved : Bool := p.metadata_status = .approved
  isApproved || isOwner || isAdmin

/-! ## Payment controller -/

/-- Body of a createOrder request.  The amount field is carried so that
its absence of influence can be stated: the source destructures only
projectId and billingDetails from the body and never reads a
client-supplied amount. -/
structure OrderRequest where
  projectId : Option Nat
  billingDetails : Option String
  amount : Option Nat
deriving DecidableEq

/-- Return paths of createOrder, one constructor per source return. -/
inductive CreateOrderOutcome
  | missingProjectId
  | projectNotFound
  | ownProject
  | notAvailable
  | existingOrder (o : Order)
  | created (oid : Nat) (o : Order)
deriving DecidableEq

/-- Lookup of an existing pending-or-processing order for the same buyer
and project, the embedding of the OrderModel.findOne duplicate check. -/
def findActiveOrder (db : OrderStore) (userId pid : Nat) : Option Order :=
  (db.find? (fun e =>
      e.2.user == userId && e.2.project == pid &&
      (e.2.status == OrderStatus.pending || e.2.status == OrderStatus.processing))).map
    (fun e => e.2)

/-- createOrder from payment.controller.js: loads the project, rejects
self-purchase and unavailable projects, returns an existing non-terminal
order for the same buyer and project when one exists, otherwise creates
a pending order whose totalAmount is the stored project price (the
backend-calculated amount).  freshId stands for the id the store assigns
to the created document. -/
def createOrder (pdb : ProjectStore) (odb : OrderStore) (callerId : Nat)
    (req : OrderRequest) (freshId : Nat) : CreateOrderOutcome × OrderStore :=
  match req.projectId with
  | none => (.missingProjectId, odb)
  | some pid =>
    match findById pdb pid with
    | none => (.projectNotFound, odb)
    | some project =>
      if project.owner = callerId then (.ownProject, odb)
      else if project.isForSale = false ∨ project.soldTo.isSome then (.notAvailable, odb)
      else
        match findActiveOrder odb callerId pid with
        | some existing => (.existingOrder existing, odb)
        | none =>
          let newOrder : Order :=
            { user := callerId
              project := pid
              totalAmount := project.price
              currency := "USD"
              status := .pending
              transactionId := none
              billingDetails := req.billingDetails.getD ""
              paymentGatewayLogs := none }
          (.created freshId newOrder, odb ++ [(freshId, newOrder)])

/-- A successful charge response from PaymentService.charge. -/
structure GatewayApproval where
  transactionId : String
  raw : String
deriving DecidableEq

/-- A failure thrown by PaymentService.charge: a decline or a gateway
error, carrying the sanitized message and the raw diagnostic payload. -/
structure GatewayFailure where
  message : String
  raw : String
deriving DecidableEq

/-- Outcome of the external gateway call, supplied to the handler as a
parameter of the run being modelled. -/
inductive GatewayResult
  | approved (a : GatewayApproval)
  | declined (e : GatewayFailure)
deriving DecidableEq

/-- Fault injected inside the mongoose session of the success flow: the
order save, the project save, or the commit itself may throw.  Any of
the three aborts the transaction, so none of the session-buffered writes
reaches the store. -/
inductive TxnFault
  | onOrderSave
  | onProjectSave
  | onCommit
deriving DecidableEq

/-- Return paths of processPayment. -/
inductive PayOutcome
  | missingParams
  | orderNotFound
  | unauthorized
  | alreadyPaid
  | paymentFailed (msg : String)
  | success (transactionId : String)
deriving DecidableEq

/-- Joint state of the two collections processPayment touches. -/
structure PayState where
  orders : OrderStore
  projects : ProjectStore
deriving DecidableEq

/-- processPayment from payment.controller.js.  The handler loads the
order with its project reference populated, rejects foreign callers and
already-paid orders, saves the processing lock outside any transaction,
then consults the gateway.  On approval the order-paid write and the
project-sold write run inside one session and the commit applies both.
A fault injected at any of the three session steps aborts the
transaction, so no buffered write reaches the store, and the thrown
dbError is caught by the gateway-failure handler, which saves the
in-memory order as failed outside the session.  The same aborting route
is taken when the referenced project is absent from the store: populate
yields a null project, reading its id inside the transaction throws,
and the session aborts.  (The in-transaction if-project skip of the
source would need the project to vanish between the populated load and
the in-session lookup; a single store with no mid-handler interleaving
cannot exhibit that race, so an absent project always takes the
throwing route here.)  On decline the order is saved as failed with the
gateway diagnostic. -/
def processPayment (st : PayState) (callerId : Nat) (orderId : Option Nat)
    (token : Option String) (gw : GatewayResult) (fault : Option TxnFault)
    (now : Nat) : PayOutcome × PayState :=
  match orderId, token with
  | none, _ => (.missingParams, st)
  | some _, none => (.missingParams, st)
  | some oid, some _tok =>
    match findById st.orders oid with
    | none => (.orderNotFound, st)
    | some order =>
      if order.user ≠ callerId then (.unauthorized, st)
      else if order.status = .paid then (.alreadyPaid, st)
      else
        let order1 := { order with status := OrderStatus.processing }
        let orders1 := saveById st.orders oid order1
        match gw with
        | .declined e =>
          let failedOrder := { order1 with
            status := OrderStatus.failed, paymentGatewayLogs := some e.raw }
          (.paymentFailed e.message,
            { orders := saveById orders1 oid failedOrder, projects := st.projects })
        | .approved a =>
          let paidOrder := { order1 with
            status := OrderStatus.paid,
            transactionId := some a.transactionId,
            paymentGatewayLogs := some a.raw }
          let failedOrder := { paidOrder with
            status := OrderStatus.failed, paymentGatewayLogs := some "dbError" }
          match fault, findById st.projects order.project with
          | none, some project =>
            (.success a.transactionId,
              { orders := saveById orders1 oid paidOrder,
                projects := saveById st.projects order.project
                  (soldCopy project callerId now) })
          | none, none =>
            (.paymentFailed "Payment Failed",
              { orders := saveById orders1 oid failedOrder,
                projects := st.projects })
          | some _f, _ =>
            (.paymentFailed "Payment Failed",
              { orders := saveById orders1 oid failedOrder,
                projects := st.projects })

/-- An INS webhook notification body, reduced to the fields the handler
reads; vendor_order_id is the internal order id (absent or foreign ids
simply find no order). -/
structure WebhookParams where
  message_type : String
  invoice_status : String
  sale_id : String
  vendor_order_id : Option Nat
  date : String
deriving DecidableEq

/-- handleWebhook from payment.controller.js: on a deposited
INVOICE_STATUS_CHANGED notification it loads the referenced order and,
when the order exists and is not yet paid, saves it as paid with the
notification transaction id.  No other state is touched; in particular
the handler never writes the project collection.  The returned string is
the EPAYMENT acknowledgement echoed to the gateway. -/
def handleWebhook (st : PayState) (params : WebhookParams) :
    String × PayState :=
  let ack := "<EPAYMENT>" ++ params.date ++ "</EPAYMENT>"
  if params.message_type = "INVOICE_STATUS_CHANGED" ∧
      params.invoice_status = "deposited" then
    match params.vendor_order_id with
    | none => (ack, st)
    | some oid =>
      match findById st.orders oid with
      | none => (ack, st)
      | some order =>
        if order.status ≠ .paid then
          let order2 := { order with
            status := OrderStatus.paid, transactionId := some params.sale_id }
          (ack, { st with orders := saveById st.orders oid order2 })
        else (ack, st)
  else (ack, st)

/-! ## Invariants and derived predicates -/

/-- Invariant on the flat marketplace fields, the ones the listing,
purchase and payment paths read and write: a for-sale project is
approved and unsold. -/
def flatInvariant (p : Project) : Prop :=
  p.isForSale = true → p.status = .approved ∧ p.soldTo = none

/-- The same invariant read on the nested fields, the ones
project.controller.js reads and writes: marketplace.isForSale true
implies metadata.status approved and marketplace.soldTo null. -/
def marketplaceInvariant (p : Project) : Prop :=
  p.marketplace_isForSale = true →
    p.metadata_status = .approved ∧ p.marketplace_soldTo = none

/-- The flat invariant over every document of a project store. -/
def storeInv (db : ProjectStore) : Prop := ∀ e ∈ db, flatInvariant e.2

/-- The order with the given id is recorded paid. -/
def orderPaidIn (st : PayState) (oid : Nat) : Prop :=
  (findById st.orders oid).map Order.status = some OrderStatus.paid

/-- The project with the given id is recorded sold to the given buyer
and off the market. -/
def projectSoldIn (st : PayState) (pid buyer : Nat) : Prop :=
  (findById st.projects pid).map (fun q => (q.soldTo, q.isForSale)) =
    some (some buyer, false)

instance (p : Project) : Decidable (flatInvariant p) :=
  inferInstanceAs
    (Decidable (p.isForSale = true → p.status = .approved ∧ p.soldTo = none))

instance (p : Project) : Decidable (marketplaceInvariant p) :=
  inferInstanceAs
    (Decidable (p.marketplace_isForSale = true →
      p.metadata_status = .approved ∧ p.marketplace_soldTo = none))

instance (db : ProjectStore) : Decidable (storeInv db) :=
  inferInstanceAs (Decidable (∀ e ∈ db, flatInvariant e.2))

instance (st : PayState) (oid : Nat) : Decidable (orderPaidIn st oid) :=
  inferInstanceAs
    (Decidable ((findById st.orders oid).map Order.status =
      some OrderStatus.paid))

instance (st : PayState) (pid buyer : Nat) : Decidable (projectSoldIn st pid buyer) :=
  inferInstanceAs
    (Decidable ((findById st.projects pid).map
      (fun q => (q.soldTo, q.isForSale)) = some (some buyer, false)))

/-! ## Concrete fixtures for witnesses and counterexamples -/

/-- An approved, listed, unsold project owned by user 0. -/
def sampleProject : Project :=
  { owner := 0
    title := "t"
    description := "d"
    price := 100
    deliveryTime := 7
    status := .approved
    reviewedBy := none
    isForSale := true
    soldTo := none
    soldAt := none
    basicInfo_title := "t"
    basicInfo_description := "d"
    basicInfo_category := "web-development"
    metadata_status := .approved
    metadata_submissionDate := none
    metadata_rejectionReason := none
    metadata_reviewedAt := none
    marketplace_isForSale := false
    marketplace_price := 100
    marketplace_soldTo := none
    marketplace_soldAt := none }

/-- An unapproved project fresh from creation: nested status pending,
nothing for sale under either schema shape. -/
def draftProject : Project :=
  { sampleProject with
    status := .draft
    isForSale := false
    metadata_status := .pending }

/-- An updateProject body whose marketplace part switches isForSale on. -/
def listItUpdate : ProjectUpdate :=
  { basicInfo := none
    marketplace := some { isForSale := some true, price := none } }

/-- The stored result of applying listItUpdate to draftProject through
the updateProject rewrite. -/
def listedDraft : Project := editPatch draftProject listItUpdate

/-- A project visible through the list query via its flat approved
status while its nested metadata.status is still pending. -/
def flatOnlyApproved : Project :=
  { sampleProject with
    status := .approved
    isForSale := false
    metadata_status := .pending }

/-- A submitted project awaiting review. -/
def submittedProject : Project :=
  { sampleProject with
    status := .draft
    isForSale := false
    metadata_status := .submitted }

/-- A pending order of buyer 2 for project 1. -/
def pendingOrder : Order :=
  { user := 2
    project := 1
    totalAmount := 100
    currency := "USD"
    status := .pending
    transactionId := none
    billingDetails := ""
    paymentGatewayLogs := none }

/-- A pending order whose referenced project id 9 is absent from the
project store below. -/
def danglingOrder : Order := { pendingOrder with project := 9 }

/-- State with one pending order whose project is missing. -/
def danglingState : PayState := { orders := [(1, danglingOrder)], projects := [] }

/-- State with a pending order and the live listing it references. -/
def webhookState : PayState :=
  { orders := [(5, pendingOrder)], projects := [(1, sampleProject)] }

/-- A deposited-settlement INS notification for order 5. -/
def depositEvent : WebhookParams :=
  { message_type := "INVOICE_STATUS_CHANGED"
    invoice_status := "deposited"
    sale_id := "tx9"
    vendor_order_id := some 5
    date := "D" }

/-- A sandbox gateway approval. -/
def approvalEx : GatewayApproval := { transactionId := "t1", raw := "APPROVED" }

/-! ## Store lemmas -/

theorem findById_saveById {α : Type} {db : List (Nat × α)} {i : Nat} {x : α}
    (h : findById db i = some x) (y : α) :
    findById (saveById db i y) i = some y := by
  induction db with
  | nil => simp [findById] at h
  | cons e t ih =>
    unfold findById at h
    unfold findById saveById
    by_cases he : e.1 = i
    · rw [List.map_cons, if_pos he]
      simp [List.find?_cons]
    · have he2 : (e.1 == i) = false := by simpa using he
      rw [List.map_cons, if_neg he]
      rw [List.find?_cons, he2] at h
      simp only [List.find?_cons, he2]
      exact ih h

theorem saveById_of_not_found {α : Type} {db : List (Nat × α)} {i : Nat}
    (h : findById db i = none) (y : α) : saveById db i y = db := by
  induction db with
  | nil => rfl
  | cons e t ih =>
    unfold findById at h
    unfold saveById
    by_cases he : e.1 = i
    · have he2 : (e.1 == i) = true := by simpa using he
      rw [List.find?_cons, he2] at h
      simp at h
    · have he2 : (e.1 == i) = false := by simpa using he
      rw [List.find?_cons, he2] at h
      rw [List.map_cons, if_neg he]
      have ht : saveById t i y = t := ih h
      unfold saveById at ht
      rw [ht]

theorem flatInvariant_of_findById {db : ProjectStore} (hdb : storeInv db)
    {pid : Nat} {p : Project} (h : findById db pid = some p) :
    flatInvariant p := by
  unfold findById at h
  obtain ⟨e, he, hsnd⟩ := Option.map_eq_some'.mp h
  have hmem : e ∈ db := List.mem_of_find?_eq_some he
  have := hdb e hmem
  rwa [hsnd] at this

theorem storeInv_saveById {db : ProjectStore} (hdb : storeInv db)
    {q : Project} (hq : flatInvariant q) (pid : Nat) :
    storeInv (saveById db pid q) := by
  intro e he
  unfold saveById at he
  obtain ⟨a, ha, hae⟩ := List.mem_map.mp he
  by_cases h : a.1 = pid
  · rw [if_pos h] at hae
    rw [show e = (pid, q) from hae.symm]
    exact hq
  · rw [if_neg h] at hae
    rw [show e = a from hae.symm]
    exact hdb a ha

theorem buyProject_success (db : ProjectStore) (pid callerId now : Nat)
    (p : Project) (hfind : findById db pid = some p)
    (hown : p.owner ≠ callerId) (hfs : p.isForSale = true)
    (hnone : p.soldTo = none) :
    buyProject db callerId pid now =
      (.success, saveById db pid (soldCopy p callerId now)) := by
  unfold buyProject buyFinish buyCheck
  rw [hfind]
  simp [hown, hfs, hnone]

theorem buyProject_notForSale (db : ProjectStore) (pid callerId now : Nat)
    (p : Project) (hfind : findById db pid = some p)
    (hown : p.owner ≠ callerId) (hns : p.isForSale = false) :
    buyProject db callerId pid now = (.notForSale, db) := by
  unfold buyProject buyFinish buyCheck
  rw [hfind]
  simp [hown, hns]

theorem runBuyers_notForSale (db : ProjectStore) (pid now : Nat)
    (q : Project) (hfind : findById db pid = some q)
    (hns : q.isForSale = false) (bs : List Nat)
    (howns : ∀ c ∈ bs, c ≠ q.owner) :
    runBuyers db pid now bs =
      (bs.map (fun _ => BuyOutcome.notForSale), db) := by
  induction bs with
  | nil => rfl
  | cons c cs ih =>
    have hc : q.owner ≠ c := Ne.symm (howns c (by simp))
    have hstep : buyProject db c pid now = (.notForSale, db) :=
      buyProject_notForSale db pid c now q hfind hc hns
    have hrest := ih (fun d hd => howns d (List.mem_cons_of_mem c hd))
    unfold runBuyers
    simp only [hstep, hrest, List.map_cons]

/-! ## C1: purchase behaviour -/

/-- C1: for every purchase request on an existing project, a
self-purchase fails with the BadRequest-class error; a not-for-sale or
already-sold project makes the request fail with a Conflict-class error
(the already-sold one when the listing flag is still up); every failure
leaves the store unchanged; and a purchase of a live unsold listing by a
non-owner succeeds, after which soldTo is the buyer, soldAt is non-null
and isForSale is false. -/
theorem buyProject_correct (db : ProjectStore) (pid callerId now : Nat)
    (p : Project) (hfind : findById db pid = some p) :
    (p.owner = callerId →
      buyProject db callerId pid now = (.selfPurchase, db) ∧
      BuyOutcome.isBadRequestClass .selfPurchase = true) ∧
    (p.owner ≠ callerId → p.isForSale = false →
      buyProject db callerId pid now = (.notForSale, db) ∧
      BuyOutcome.isConflictClass .notForSale = true) ∧
    (p.owner ≠ callerId → p.isForSale = true → p.soldTo.isSome →
      buyProject db callerId pid now = (.alreadySold, db) ∧
      BuyOutcome.isConflictClass .alreadySold = true) ∧
    (p.owner ≠ callerId → p.isForSale = true → p.soldTo = none →
      buyProject db callerId pid now =
        (.success, saveById db pid (soldCopy p callerId now)) ∧
      ∃ q, findById (buyProject db callerId pid now).2 pid = some q ∧
        q.soldTo = some callerId ∧ q.soldAt = some now ∧ q.isForSale = false) := by
  refine ⟨?_, ?_, ?_, ?_⟩
  · intro hown
    refine ⟨?_, rfl⟩
    unfold buyProject buyFinish buyCheck
    rw [hfind]
    simp [hown]
  · intro hown hns
    refine ⟨?_, rfl⟩
    unfold buyProject buyFinish buyCheck
    rw [hfind]
    simp [hown, hns]
  · intro hown hfs hsold
    refine ⟨?_, rfl⟩
    unfold buyProject buyFinish buyCheck
    rw [hfind]
    simp [hown, hfs, hsold]
  · intro hown hfs hnone
    have hres : buyProject db callerId pid now =
        (.success, saveById db pid (soldCopy p callerId now)) := by
      unfold buyProject buyFinish buyCheck
      rw [hfind]
      simp [hown, hfs, hnone]
    refine ⟨hres, soldCopy p callerId now, ?_, rfl, rfl, rfl⟩
    rw [hres]
    exact findById_saveById hfind _

/-- Witness for C1 at a concrete store: buyer 2 purchases the listed
project 1 owned by user 0. -/
theorem buyProject_correct_witness :
    buyProject [(1, sampleProject)] 2 1 5 =
      (.success, saveById [(1, sampleProject)] 1 (soldCopy sampleProject 2 5)) ∧
    sampleProject.owner ≠ 2 ∧ sampleProject.isForSale = true ∧
    sampleProject.soldTo = none := by
  have h := buyProject_correct [(1, sampleProject)] 1 2 5 sampleProject rfl
  exact ⟨(h.2.2.2 (by decide) (by decide) (by decide)).1, by decide, by decide, by decide⟩

/-! ## C4: purchase serialization -/

/-- C4 (amended): when N purchase attempts on a live unsold listing by
non-owners are executed serially, exactly the first succeeds and the
other N-1 fail with a Conflict-class error; the counterexample theorem
for this claim shows the transition itself is a read-then-write, not a
conditional update, so overlapped handler schedules escape this
guarantee. -/
theorem runBuyers_serial_one_success (db : ProjectStore) (pid now : Nat)
    (p : Project) (b : Nat) (bs : List Nat)
    (hfind : findById db pid = some p)
    (hfs : p.isForSale = true) (hnone : p.soldTo = none)
    (hb : b ≠ p.owner) (hbs : ∀ c ∈ bs, c ≠ p.owner) :
    (runBuyers db pid now (b :: bs)).1 =
      .success :: bs.map (fun _ => BuyOutcome.notForSale) ∧
    (runBuyers db pid now (b :: bs)).1.count .success = 1 ∧
    (∀ o ∈ (runBuyers db pid now (b :: bs)).1, o ≠ .success →
      o.isConflictClass = true) := by
  have hstep : buyProject db b pid now =
      (.success, saveById db pid (soldCopy p b now)) :=
    buyProject_success db pid b now p hfind (Ne.symm hb) hfs hnone
  have hfind2 : findById (saveById db pid (soldCopy p b now)) pid =
      some (soldCopy p b now) := findById_saveById hfind _
  have hrest := runBuyers_notForSale (saveById db pid (soldCopy p b now))
    pid now (soldCopy p b now) hfind2 rfl bs
    (by intro c hc; simpa [soldCopy] using hbs c hc)
  have hmain : runBuyers db pid now (b :: bs) =
      (.success :: bs.map (fun _ => BuyOutcome.notForSale),
        saveById db pid (soldCopy p b now)) := by
    unfold runBuyers
    simp only [hstep, hrest]
  refine ⟨by rw [hmain], ?_, ?_⟩
  · rw [hmain]
    simp [List.count_cons, List.count_replicate]
  · rw [hmain]
    intro o ho hne
    rcases List.mem_cons.mp ho with h1 | h2
    · exact absurd h1 hne
    · obtain ⟨c, _, hco⟩ := List.mem_map.mp h2
      rw [show o = BuyOutcome.notForSale from hco.symm]
      rfl

/-- Witness for C4 at a concrete store: buyers 2 and 3 attempt serially;
buyer 2 succeeds and buyer 3 gets the Conflict-class failure. -/
theorem runBuyers_serial_one_success_witness :
    (runBuyers [(1, sampleProject)] 1 5 [2, 3]).1 =
      [BuyOutcome.success, BuyOutcome.notForSale] ∧
    (runBuyers [(1, sampleProject)] 1 5 [2, 3]).1.count .success = 1 := by
  have h := runBuyers_serial_one_success [(1, sampleProject)] 1 5
    sampleProject 2 [3] rfl (by decide) (by decide) (by decide) (by decide)
  exact ⟨h.1, h.2.1⟩

/-- C4 counterexample: an overlapped schedule of two purchase handlers
on the same live listing, permitted by the findById-then-save sequence
of the source, reports success to both buyers, and the second write
silently overwrites the first sale, so the store ends with soldTo buyer
3 even though buyer 2 was also told the purchase succeeded. -/
theorem buyInterleaved2_two_successes :
    (buyInterleaved2 [(1, sampleProject)] 2 3 1 5).1 = (.success, .success) ∧
    (findById (buyInterleaved2 [(1, sampleProject)] 2 3 1 5).2 1).map
      Project.soldTo = some (some 3) := by
  exact ⟨rfl, rfl⟩

/-! ## C2: the for-sale invariant across operations -/

theorem listingPatch_flat (p : Project) (u : ListingUpdate) :
    (listingPatch p u).isForSale = p.isForSale ∧
    (listingPatch p u).status = p.status ∧
    (listingPatch p u).soldTo = p.soldTo := by
  rcases u with ⟨t, d, pr, dt⟩
  cases pr <;> cases dt <;>
    simp only [listingPatch] <;> split_ifs <;> simp

theorem applyBasicInfo_flat (p : Project) (b : Option BasicInfoUpdate) :
    (applyBasicInfo p b).isForSale = p.isForSale ∧
    (applyBasicInfo p b).status = p.status ∧
    (applyBasicInfo p b).soldTo = p.soldTo := by
  cases b with
  | none => exact ⟨rfl, rfl, rfl⟩
  | some bi =>
    simp only [applyBasicInfo]
    split_ifs <;> simp

theorem applyMarketplace_flat (p : Project) (m : Option MarketplaceUpdate) :
    (applyMarketplace p m).isForSale = p.isForSale ∧
    (applyMarketplace p m).status = p.status ∧
    (applyMarketplace p m).soldTo = p.soldTo := by
  cases m with
  | none => exact ⟨rfl, rfl, rfl⟩
  | some mu =>
    rcases mu with ⟨mi, mp⟩
    cases mi <;> cases mp <;> simp [applyMarketplace]

theorem editPatch_flat (p : Project) (u : ProjectUpdate) :
    (editPatch p u).isForSale = p.isForSale ∧
    (editPatch p u).status = p.status ∧
    (editPatch p u).soldTo = p.soldTo := by
  have h1 := applyBasicInfo_flat p u.basicInfo
  have h2 := applyMarketplace_flat (applyBasicInfo p u.basicInfo) u.marketplace
  unfold editPatch
  split_ifs <;>
    exact ⟨by simp [h2.1, h1.1], by simp [h2.2.1, h1.2.1], by simp [h2.2.2, h1.2.2]⟩

theorem createListing_inv (db : ProjectStore) (hdb : storeInv db)
    (callerId pid : Nat) : storeInv (createListing db callerId pid).2 := by
  unfold createListing
  cases hfind : findById db pid with
  | none => exact hdb
  | some p =>
    simp only []
    split_ifs with h1 h2 h3 h4
    · exact hdb
    · exact hdb
    · exact hdb
    · exact hdb
    · refine storeInv_saveById hdb ?_ pid
      intro _
      exact ⟨not_not.mp h2, Option.not_isSome_iff_eq_none.mp h4⟩

theorem updateListing_inv (db : ProjectStore) (hdb : storeInv db)
    (callerId pid : Nat) (u : ListingUpdate) :
    storeInv (updateListing db callerId pid u).2 := by
  unfold updateListing
  cases hfind : findById db pid with
  | none => exact hdb
  | some p =>
    simp only []
    split_ifs with h1 h2 h3
    · exact hdb
    · exact hdb
    · exact hdb
    · refine storeInv_saveById hdb ?_ pid
      have hp := flatInvariant_of_findById hdb hfind
      have hl := listingPatch_flat p u
      intro hfs
      rw [hl.1] at hfs
      rw [hl.2.1, hl.2.2]
      exact hp hfs

theorem deleteListing_inv (db : ProjectStore) (hdb : storeInv db)
    (caller : User) (pid : Nat) : storeInv (deleteListing db caller pid).2 := by
  unfold deleteListing
  cases hfind : findById db pid with
  | none => exact hdb
  | some p =>
    simp only []
    split_ifs with h1
    · exact hdb
    · refine storeInv_saveById hdb ?_ pid
      intro habs
      exact absurd habs (by simp)

theorem buyProject_inv (db : ProjectStore) (hdb : storeInv db)
    (callerId pid now : Nat) : storeInv (buyProject db callerId pid now).2 := by
  unfold buyProject buyFinish
  cases hfind : findById db pid with
  | none => exact hdb
  | some p =>
    simp only []
    cases hc : buyCheck (some p) callerId with
    | notFound => exact hdb
    | selfPurchase => exact hdb
    | notForSale => exact hdb
    | alreadySold => exact hdb
    | success =>
      refine storeInv_saveById hdb ?_ pid
      intro habs
      exact absurd habs (by simp [soldCopy])

theorem updateProject_inv (db : ProjectStore) (hdb : storeInv db)
    (callerId pid : Nat) (u : ProjectUpdate) :
    storeInv (updateProject db callerId pid u).2 := by
  unfold updateProject
  cases hfind : findById db pid with
  | none => exact hdb
  | some p =>
    simp only []
    split_ifs with h1 h2
    · exact hdb
    · exact hdb
    · refine storeInv_saveById hdb ?_ pid
      have hp := flatInvariant_of_findById hdb hfind
      have hl := editPatch_flat p u
      intro hfs
      rw [hl.1] at hfs
      rw [hl.2.1, hl.2.2]
      exact hp hfs

theorem submitProject_inv (db : ProjectStore) (hdb : storeInv db)
    (callerId pid now : Nat) : storeInv (submitProject db callerId pid now).2 := by
  unfold submitProject
  cases hfind : findById db pid with
  | none => exact hdb
  | some p =>
    simp only []
    split_ifs with h1 h2
    · exact hdb
    · exact hdb
    · refine storeInv_saveById hdb ?_ pid
      have hp := flatInvariant_of_findById hdb hfind
      intro hfs
      exact hp hfs

theorem approveProject_inv (db : ProjectStore) (hdb : storeInv db)
    (adminId pid now : Nat) : storeInv (approveProject db adminId pid now).2 := by
  unfold approveProject
  cases hfind : findById db pid with
  | none => exact hdb
  | some p =>
    simp only []
    split_ifs with h1
    · exact hdb
    · refine storeInv_saveById hdb ?_ pid
      have hp := flatInvariant_of_findById hdb hfind
      intro hfs
      exact hp hfs

theorem rejectProject_inv (db : ProjectStore) (hdb : storeInv db)
    (adminId pid now : Nat) (reason : String) :
    storeInv (rejectProject db adminId pid now reason).2 := by
  unfold rejectProject
  split_ifs with h0
  · exact hdb
  · cases hfind : findById db pid with
    | none => exact hdb
    | some p =>
      simp only []
      split_ifs with h1
      · exact hdb
      · refine storeInv_saveById hdb ?_ pid
        have hp := flatInvariant_of_findById hdb hfind
        intro hfs
        exact hp hfs

theorem processPayment_inv (st : PayState) (hdb : storeInv st.projects)
    (callerId : Nat) (orderId : Option Nat) (token : Option String)
    (gw : GatewayResult) (fault : Option TxnFault) (now : Nat) :
    storeInv (processPayment st callerId orderId token gw fault now).2.projects := by
  unfold processPayment
  cases orderId with
  | none => exact hdb
  | some oid =>
    cases token with
    | none => exact hdb
    | some tok =>
      simp only []
      cases hford : findById st.orders oid with
      | none => exact hdb
      | some order =>
        simp only []
        split_ifs with h1 h2
        · exact hdb
        · exact hdb
        · cases gw with
          | declined e => exact hdb
          | approved a =>
            cases fault with
            | some f => exact hdb
            | none =>
              simp only []
              cases hfp : findById st.projects order.project with
              | none => exact hdb
              | some project =>
                refine storeInv_saveById hdb ?_ order.project
                intro habs
                exact absurd habs (by simp [soldCopy])

/-- C2 counterexample: updateProject, the project-edit path, writes the
client-supplied marketplace.isForSale flag: the owner of a pending
project switches it on through an ordinary edit, and the stored result
violates the isForSale-implies-approved-and-unsold invariant that held
before the edit, even though the edit is not a listing, purchase or
payment operation. -/
theorem updateProject_writes_isForSale :
    updateProject [(1, draftProject)] 0 1 listItUpdate =
      (.success, [(1, listedDraft)]) ∧
    listedDraft.marketplace_isForSale = true ∧
    listedDraft.metadata_status = Status.pending ∧
    ¬ marketplaceInvariant listedDraft ∧
    marketplaceInvariant draftProject ∧ flatInvariant draftProject := by
  exact ⟨rfl, rfl, rfl, by decide, by decide, by decide⟩

/-- C2 (amended): the invariant on the flat marketplace fields, the
fields the listing, purchase and payment paths read and write, is
preserved by all nine operations of the claim; the nested
marketplace.isForSale written by the project-edit path from client
input is the exception recorded by the counterexample. -/
theorem operations_preserve_invariant (db : ProjectStore) (hdb : storeInv db) :
    (∀ callerId pid, storeInv (createListing db callerId pid).2) ∧
    (∀ callerId pid u, storeInv (updateListing db callerId pid u).2) ∧
    (∀ caller pid, storeInv (deleteListing db caller pid).2) ∧
    (∀ callerId pid now, storeInv (buyProject db callerId pid now).2) ∧
    (∀ callerId pid u, storeInv (updateProject db callerId pid u).2) ∧
    (∀ callerId pid now, storeInv (submitProject db callerId pid now).2) ∧
    (∀ adminId pid now, storeInv (approveProject db adminId pid now).2) ∧
    (∀ adminId pid now reason,
      storeInv (rejectProject db adminId pid now reason).2) ∧
    (∀ odb callerId orderId token gw fault now,
      storeInv (processPayment ⟨odb, db⟩ callerId orderId token
        gw fault now).2.projects) := by
  refine ⟨fun c pid => createListing_inv db hdb c pid,
    fun c pid u => updateListing_inv db hdb c pid u,
    fun c pid => deleteListing_inv db hdb c pid,
    fun c pid now => buyProject_inv db hdb c pid now,
    fun c pid u => updateProject_inv db hdb c pid u,
    fun c pid now => submitProject_inv db hdb c pid now,
    fun a pid now => approveProject_inv db hdb a pid now,
    fun a pid now r => rejectProject_inv db hdb a pid now r,
    fun odb c oi tok gw f now =>
      processPayment_inv ⟨odb, db⟩ hdb c oi tok gw f now⟩

/-- Witness for C2 at a concrete store satisfying the invariant. -/
theorem operations_preserve_invariant_witness :
    storeInv [(1, sampleProject)] ∧
    storeInv (buyProject [(1, sampleProject)] 2 1 5).2 := by
  have h := operations_preserve_invariant [(1, sampleProject)] (by decide)
  exact ⟨by decide, h.2.2.2.1 2 1 5⟩

/-! ## C5: the approve transition -/

/-- C5: approve succeeds exactly on a project whose metadata.status is
submitted, writing the approved status, the review timestamp, the
reviewing admin and a cleared rejection reason; invoked in any other
status it returns the Conflict-class wrong-status failure, surfaced as
HTTP 400, and the store is left unchanged. -/
theorem approveProject_correct (db : ProjectStore) (adminId pid now : Nat)
    (p : Project) (hfind : findById db pid = some p) :
    (p.metadata_status = .submitted →
      approveProject db adminId pid now =
        (.success, saveById db pid
          { p with metadata_status := .approved,
                   metadata_reviewedAt := some now,
                   reviewedBy := some adminId,
                   metadata_rejectionReason := none }) ∧
      ∃ q, findById (approveProject db adminId pid now).2 pid = some q ∧
        q.metadata_status = .approved ∧ q.metadata_reviewedAt = some now ∧
        q.reviewedBy = some adminId ∧ q.metadata_rejectionReason = none) ∧
    (p.metadata_status ≠ .submitted →
      approveProject db adminId pid now = (.wrongStatus, db) ∧
      ReviewOutcome.isConflictClass .wrongStatus = true ∧
      ReviewOutcome.httpStatus .wrongStatus = 400) := by
  constructor
  · intro hst
    have hres : approveProject db adminId pid now =
        (.success, saveById db pid
          { p with metadata_status := .approved,
                   metadata_reviewedAt := some now,
                   reviewedBy := some adminId,
                   metadata_rejectionReason := none }) := by
      unfold approveProject
      rw [hfind]
      simp [hst]
    refine ⟨hres,
      { p with metadata_status := .approved,
               metadata_reviewedAt := some now,
               reviewedBy := some adminId,
               metadata_rejectionReason := none }, ?_, rfl, rfl, rfl, rfl⟩
    rw [hres]
    exact findById_saveById hfind _
  · intro hst
    refine ⟨?_, rfl, rfl⟩
    unfold approveProject
    rw [hfind]
    simp [hst]

/-- Witness for C5 at a concrete store holding a submitted project. -/
theorem approveProject_correct_witness :
    approveProject [(1, submittedProject)] 9 1 3 =
      (.success, saveById [(1, submittedProject)] 1
        { submittedProject with
            metadata_status := .approved,
            metadata_reviewedAt := some 3,
            reviewedBy := some 9,
            metadata_rejectionReason := none }) := by
  have h := approveProject_correct [(1, submittedProject)] 9 1 3
    submittedProject rfl
  exact (h.1 (by decide)).1

/-! ## C3 and C10: payment finalization -/

/-- C3: on the synchronous path after gateway approval, the order-paid
write and the project-sold write stand or fall together: with no fault
and the referenced project present the commit applies both; a fault
injected anywhere inside the transaction (including between the two
writes) applies neither, leaving the project store untouched and the
order failed rather than paid; an absent referenced project makes the
transaction throw and abort the same way; and in every case the order
is recorded paid exactly when the project is recorded sold (the
pre-state hypothesis that the project is not already recorded sold to
this caller makes the state reading of the two writes exact). -/
theorem processPayment_atomic (st : PayState) (callerId oid now : Nat)
    (tok : String) (a : GatewayApproval) (fault : Option TxnFault)
    (ord : Order)
    (hord : findById st.orders oid = some ord)
    (huser : ord.user = callerId) (hnp : ord.status ≠ .paid)
    (hnys : ¬ projectSoldIn st ord.project callerId) :
    (orderPaidIn (processPayment st callerId (some oid) (some tok)
        (.approved a) fault now).2 oid ↔
      projectSoldIn (processPayment st callerId (some oid) (some tok)
        (.approved a) fault now).2 ord.project callerId) ∧
    (∀ proj, findById st.projects ord.project = some proj → fault = none →
      (processPayment st callerId (some oid) (some tok)
        (.approved a) fault now).1 = .success a.transactionId ∧
      orderPaidIn (processPayment st callerId (some oid) (some tok)
        (.approved a) fault now).2 oid ∧
      projectSoldIn (processPayment st callerId (some oid) (some tok)
        (.approved a) fault now).2 ord.project callerId) ∧
    (∀ f, fault = some f →
      ¬ orderPaidIn (processPayment st callerId (some oid) (some tok)
        (.approved a) fault now).2 oid ∧
      (processPayment st callerId (some oid) (some tok)
        (.approved a) fault now).2.projects = st.projects) ∧
    (findById st.projects ord.project = none →
      ¬ orderPaidIn (processPayment st callerId (some oid) (some tok)
        (.approved a) fault now).2 oid ∧
      (processPayment st callerId (some oid) (some tok)
        (.approved a) fault now).2.projects = st.projects) := by
  have hord1 : findById (saveById st.orders oid
      { ord with status := OrderStatus.processing }) oid =
      some { ord with status := OrderStatus.processing } :=
    findById_saveById hord _
  cases fault with
  | none =>
    cases hproj : findById st.projects ord.project with
    | some proj =>
      have hres : processPayment st callerId (some oid) (some tok)
          (.approved a) none now =
          (.success a.transactionId,
            { orders := saveById (saveById st.orders oid
                { ord with status := OrderStatus.processing }) oid
                { ord with status := OrderStatus.paid,
                           transactionId := some a.transactionId,
                           paymentGatewayLogs := some a.raw },
              projects := saveById st.projects ord.project
                (soldCopy proj callerId now) }) := by
        unfold processPayment
        simp only []
        rw [hord]
        simp [huser, hnp, hproj]
      have hpaid : orderPaidIn (processPayment st callerId (some oid)
          (some tok) (.approved a) none now).2 oid := by
        rw [hres]
        unfold orderPaidIn
        rw [findById_saveById hord1 _]
        rfl
      have hsold : projectSoldIn (processPayment st callerId (some oid)
          (some tok) (.approved a) none now).2 ord.project callerId := by
        rw [hres]
        unfold projectSoldIn
        rw [findById_saveById hproj _]
        rfl
      refine ⟨⟨fun _ => hsold, fun _ => hpaid⟩, ?_, ?_, ?_⟩
      · intro proj2 hp2 _
        exact ⟨by rw [hres], hpaid, hsold⟩
      · intro f hf
        exact Option.noConfusion hf
      · intro hnone
        exact Option.noConfusion hnone
    | none =>
      have hres : processPayment st callerId (some oid) (some tok)
          (.approved a) none now =
          (.paymentFailed "Payment Failed",
            { orders := saveById (saveById st.orders oid
                { ord with status := OrderStatus.processing }) oid
                { ord with status := OrderStatus.failed,
                           transactionId := some a.transactionId,
                           paymentGatewayLogs := some "dbError" },
              projects := st.projects }) := by
        unfold processPayment
        simp only []
        rw [hord]
        simp [huser, hnp, hproj]
      have hnotpaid : ¬ orderPaidIn (processPayment st callerId (some oid)
          (some tok) (.approved a) none now).2 oid := by
        rw [hres]
        unfold orderPaidIn
        rw [findById_saveById hord1 _]
        simp
      have hnotsold : ¬ projectSoldIn (processPayment st callerId (some oid)
          (some tok) (.approved a) none now).2 ord.project callerId := by
        rw [hres]
        unfold projectSoldIn
        simp only []
        rw [hproj]
        simp
      refine ⟨⟨fun h => absurd h hnotpaid, fun h => absurd h hnotsold⟩,
        ?_, ?_, ?_⟩
      · intro proj2 hp2 _
        exact Option.noConfusion hp2
      · intro f hf
        exact Option.noConfusion hf
      · intro _
        exact ⟨hnotpaid, by rw [hres]⟩
  | some f =>
    have hres : processPayment st callerId (some oid) (some tok)
        (.approved a) (some f) now =
        (.paymentFailed "Payment Failed",
          { orders := saveById (saveById st.orders oid
              { ord with status := OrderStatus.processing }) oid
              { ord with status := OrderStatus.failed,
                         transactionId := some a.transactionId,
                         paymentGatewayLogs := some "dbError" },
            projects := st.projects }) := by
      unfold processPayment
      simp only []
      rw [hord]
      simp [huser, hnp]
    have hnotpaid : ¬ orderPaidIn (processPayment st callerId (some oid)
        (some tok) (.approved a) (some f) now).2 oid := by
      rw [hres]
      unfold orderPaidIn
      rw [findById_saveById hord1 _]
      simp
    have hprojeq : (processPayment st callerId (some oid) (some tok)
        (.approved a) (some f) now).2.projects = st.projects := by
      rw [hres]
    have hnotsold : ¬ projectSoldIn (processPayment st callerId (some oid)
        (some tok) (.approved a) (some f) now).2 ord.project callerId := by
      unfold projectSoldIn
      rw [hprojeq]
      exact hnys
    exact ⟨⟨fun h => absurd h hnotpaid, fun h => absurd h hnotsold⟩,
      fun proj2 hp2 hf => Option.noConfusion hf,
      fun g hg => ⟨hnotpaid, hprojeq⟩,
      fun _ => ⟨hnotpaid, hprojeq⟩⟩

/-- Witness for C3: the fault-free and the faulted run on a concrete
store with order 5 referencing the live project 1 owned by user 0. -/
theorem processPayment_atomic_witness :
    orderPaidIn (processPayment webhookState 2 (some 5) (some "tok")
      (.approved approvalEx) none 7).2 5 ∧
    projectSoldIn (processPayment webhookState 2 (some 5) (some "tok")
      (.approved approvalEx) none 7).2 1 2 ∧
    ¬ orderPaidIn (processPayment webhookState 2 (some 5) (some "tok")
      (.approved approvalEx) (some .onProjectSave) 7).2 5 ∧
    (processPayment webhookState 2 (some 5) (some "tok")
      (.approved approvalEx) (some .onProjectSave) 7).2.projects =
      webhookState.projects := by
  have h0 := processPayment_atomic webhookState 2 5 7 "tok" approvalEx none
    pendingOrder rfl rfl (by decide) (by decide)
  have h1 := processPayment_atomic webhookState 2 5 7 "tok" approvalEx
    (some .onProjectSave) pendingOrder rfl rfl (by decide) (by decide)
  have h2 := h0.2.1 sampleProject rfl rfl
  have h3 := h1.2.2.1 .onProjectSave rfl
  exact ⟨h2.2.1, h2.2.2, h3.1, h3.2⟩

/-- C10 counterexample: at the concrete store whose order 1 references
the absent project 9, the synchronous path with gateway approval does
not commit: the null-populated project reference throws inside the
session, the order is saved failed, the project store is untouched and
the caller receives the Payment Failed error, not a success response. -/
theorem processPayment_fails_without_project_concrete :
    (processPayment danglingState 2 (some 1) (some "tok")
        (.approved approvalEx) none 7).1 = .paymentFailed "Payment Failed" ∧
    ¬ orderPaidIn (processPayment danglingState 2 (some 1) (some "tok")
        (.approved approvalEx) none 7).2 1 ∧
    (findById (processPayment danglingState 2 (some 1) (some "tok")
        (.approved approvalEx) none 7).2.orders 1).map Order.status =
      some OrderStatus.failed ∧
    (processPayment danglingState 2 (some 1) (some "tok")
        (.approved approvalEx) none 7).2.projects = danglingState.projects := by
  decide

/-- C10 (amended): when the gateway approves a charge but the Order's
referenced Project no longer exists in the store, the finalization does
not commit: the populated project reference is null, reading its id
inside the transaction throws, the session aborts, the Order is saved
failed (never paid), no Project is marked sold, and the caller receives
the Payment Failed error response rather than success. -/
theorem processPayment_fails_without_project (st : PayState)
    (callerId oid now : Nat) (tok : String) (a : GatewayApproval)
    (fault : Option TxnFault) (ord : Order)
    (hord : findById st.orders oid = some ord)
    (huser : ord.user = callerId) (hnp : ord.status ≠ .paid)
    (hmissing : findById st.projects ord.project = none) :
    (processPayment st callerId (some oid) (some tok)
      (.approved a) fault now).1 = .paymentFailed "Payment Failed" ∧
    ¬ orderPaidIn (processPayment st callerId (some oid) (some tok)
      (.approved a) fault now).2 oid ∧
    (findById (processPayment st callerId (some oid) (some tok)
      (.approved a) fault now).2.orders oid).map Order.status =
      some OrderStatus.failed ∧
    (processPayment st callerId (some oid) (some tok)
      (.approved a) fault now).2.projects = st.projects := by
  have hord1 : findById (saveById st.orders oid
      { ord with status := OrderStatus.processing }) oid =
      some { ord with status := OrderStatus.processing } :=
    findById_saveById hord _
  have hres : processPayment st callerId (some oid) (some tok)
      (.approved a) fault now =
      (.paymentFailed "Payment Failed",
        { orders := saveById (saveById st.orders oid
            { ord with status := OrderStatus.processing }) oid
            { ord with status := OrderStatus.failed,
                       transactionId := some a.transactionId,
                       paymentGatewayLogs := some "dbError" },
          projects := st.projects }) := by
    cases fault with
    | none =>
      unfold processPayment
      simp only []
      rw [hord]
      simp [huser, hnp, hmissing]
    | some f =>
      unfold processPayment
      simp only []
      rw [hord]
      simp [huser, hnp]
  refine ⟨by rw [hres], ?_, ?_, by rw [hres]⟩
  · rw [hres]
    unfold orderPaidIn
    rw [findById_saveById hord1 _]
    simp
  · rw [hres]
    simp only []
    rw [findById_saveById hord1 _]
    rfl

/-- Witness for C10 at the concrete store whose order references the
absent project 9, with no injected fault. -/
theorem processPayment_fails_without_project_witness :
    (processPayment danglingState 2 (some 1) (some "tok")
      (.approved approvalEx) none 7).1 = .paymentFailed "Payment Failed" ∧
    ¬ orderPaidIn (processPayment danglingState 2 (some 1) (some "tok")
      (.approved approvalEx) none 7).2 1 := by
  have h := processPayment_fails_without_project danglingState 2 1 7 "tok"
    approvalEx none danglingOrder rfl rfl (by decide) rfl
  exact ⟨h.1, h.2.1⟩

/-! ## C6 and C7: the webhook settlement path -/

/-- C6: evaluation at the failing input.  A deposited-settlement
notification for the pending order 5 of buyer 2 on the live project 1
marks the order paid, but the project store is untouched: the project is
still for sale and unsold, so the asynchronous path does not perform the
project half of the terminal transition (the handler body only carries a
comment where the transfer should be). -/
theorem handleWebhook_order_paid_project_untouched :
    (findById (handleWebhook webhookState depositEvent).2.orders 5).map
      Order.status = some OrderStatus.paid ∧
    (handleWebhook webhookState depositEvent).2.projects =
      webhookState.projects ∧
    ¬ projectSoldIn (handleWebhook webhookState depositEvent).2 1 2 ∧
    pendingOrder.status ≠ OrderStatus.paid ∧
    pendingOrder.project = 1 ∧ pendingOrder.user = 2 ∧
    sampleProject.isForSale = true ∧ sampleProject.soldTo = none := by
  decide

/-- C7: the webhook settlement handler is idempotent: running it twice
with the same notification gives exactly the one-run result; an
already-paid referenced order makes the run a no-op on the state; and an
unpaid referenced order of a deposited settlement is transitioned to
paid carrying the notification transaction id. -/
theorem handleWebhook_idempotent (st : PayState) (params : WebhookParams) :
    handleWebhook (handleWebhook st params).2 params =
      handleWebhook st params ∧
    (∀ oid ord, params.vendor_order_id = some oid →
      findById st.orders oid = some ord → ord.status = .paid →
      (handleWebhook st params).2 = st) ∧
    (∀ oid ord, params.message_type = "INVOICE_STATUS_CHANGED" →
      params.invoice_status = "deposited" →
      params.vendor_order_id = some oid →
      findById st.orders oid = some ord → ord.status ≠ .paid →
      findById (handleWebhook st params).2.orders oid =
        some { ord with status := .paid,
                        transactionId := some params.sale_id }) := by
  obtain ⟨mt, inv, sid, vo, date⟩ := params
  by_cases hc : mt = "INVOICE_STATUS_CHANGED" ∧ inv = "deposited"
  · cases vo with
    | none =>
      refine ⟨by simp [handleWebhook, hc], ?_, ?_⟩
      · intro oid ord hvo
        exact Option.noConfusion hvo
      · intro oid ord _ _ hvo
        exact Option.noConfusion hvo
    | some oid =>
      cases hford : findById st.orders oid with
      | none =>
        have hrun : handleWebhook st ⟨mt, inv, sid, some oid, date⟩ =
            ("<EPAYMENT>" ++ date ++ "</EPAYMENT>", st) := by
          unfold handleWebhook
          rw [if_pos hc]
          simp only []
          rw [hford]
        refine ⟨?_, ?_, ?_⟩
        · rw [hrun]
          simp only []
          exact hrun
        · intro o ord hvo hf hp
          rw [hrun]
        · intro o ord _ _ hvo hf hp
          rw [Option.some.injEq] at hvo
          rw [← hvo] at hf
          rw [hford] at hf
          exact Option.noConfusion hf
      | some ord =>
        by_cases hp : ord.status = OrderStatus.paid
        · have hrun : handleWebhook st ⟨mt, inv, sid, some oid, date⟩ =
              ("<EPAYMENT>" ++ date ++ "</EPAYMENT>", st) := by
            unfold handleWebhook
            rw [if_pos hc]
            simp only []
            rw [hford]
            simp [hp]
          refine ⟨?_, fun o hord hvo hf hpd => by rw [hrun], ?_⟩
          · rw [hrun]
            simp only []
            exact hrun
          · intro o ord2 _ _ hvo hf hnp
            rw [Option.some.injEq] at hvo
            rw [← hvo] at hf
            rw [hford] at hf
            rw [Option.some.injEq] at hf
            rw [← hf] at hnp
            exact absurd hp hnp
        · have hrun : handleWebhook st ⟨mt, inv, sid, some oid, date⟩ =
              ("<EPAYMENT>" ++ date ++ "</EPAYMENT>",
                { st with orders := saveById st.orders oid { ord with status := .paid, transactionId := some sid } }) := by
            unfold handleWebhook
            rw [if_pos hc]
            simp only []
            rw [hford]
            simp [hp]
          have hford2 : findById (saveById st.orders oid
              { ord with status := OrderStatus.paid,
                         transactionId := some sid }) oid =
              some { ord with status := OrderStatus.paid,
                              transactionId := some sid } :=
            findById_saveById hford _
          refine ⟨?_, ?_, ?_⟩
          · rw [hrun]
            simp only []
            unfold handleWebhook
            rw [if_pos hc]
            simp only []
            rw [hford2]
            simp
          · intro o ord2 hvo hf hpd
            rw [Option.some.injEq] at hvo
            rw [← hvo] at hf
            rw [hford] at hf
            rw [Option.some.injEq] at hf
            rw [← hf] at hpd
            exact absurd hpd hp
          · intro o ord2 _ _ hvo hf hnp
            rw [Option.some.injEq] at hvo
            subst hvo
            rw [hford] at hf
            rw [Option.some.injEq] at hf
            subst hf
            rw [hrun]
            simp only []
            exact hford2
  · have hrun : ∀ s : PayState, handleWebhook s ⟨mt, inv, sid, vo, date⟩ =
        ("<EPAYMENT>" ++ date ++ "</EPAYMENT>", s) := by
      intro s
      unfold handleWebhook
      rw [if_neg hc]
    refine ⟨?_, fun o ord hvo hf hp => by rw [hrun st], ?_⟩
    · rw [hrun st]
      simp only []
      exact hrun st
    · intro o ord hmt hinv hvo hf hnp
      exact absurd ⟨hmt, hinv⟩ hc

/-- Witness for C7 at the concrete webhook state: the deposited event
for the pending order, applied once and twice. -/
theorem handleWebhook_idempotent_witness :
    handleWebhook (handleWebhook webhookState depositEvent).2 depositEvent =
      handleWebhook webhookState depositEvent ∧
    findById (handleWebhook webhookState depositEvent).2.orders 5 =
      some { pendingOrder with status := .paid,
                               transactionId := some "tx9" } := by
  have h := handleWebhook_idempotent webhookState depositEvent
  exact ⟨h.1, h.2.2 5 pendingOrder rfl rfl rfl rfl (by decide)⟩

/-! ## C8: server-computed order amount -/

/-- C8: every created order carries the referenced project's stored
price as its amount, and the client-supplied amount field has no
influence: two requests equal except for the amount field produce
identical results. -/
theorem createOrder_amount_server_computed (pdb : ProjectStore)
    (odb : OrderStore) (callerId freshId : Nat) (req : OrderRequest) :
    (∀ oid o odb2,
      createOrder pdb odb callerId req freshId = (.created oid o, odb2) →
      ∃ pid project, req.projectId = some pid ∧
        findById pdb pid = some project ∧ o.totalAmount = project.price) ∧
    (∀ req2 : OrderRequest, req2.projectId = req.projectId →
      req2.billingDetails = req.billingDetails →
      createOrder pdb odb callerId req2 freshId =
        createOrder pdb odb callerId req freshId) := by
  constructor
  · intro oid o odb2 h
    unfold createOrder at h
    cases hpid : req.projectId with
    | none =>
      rw [hpid] at h
      exact CreateOrderOutcome.noConfusion (congrArg Prod.fst h)
    | some pid =>
      rw [hpid] at h
      simp only [] at h
      cases hproj : findById pdb pid with
      | none =>
        rw [hproj] at h
        exact CreateOrderOutcome.noConfusion (congrArg Prod.fst h)
      | some project =>
        rw [hproj] at h
        simp only [] at h
        split_ifs at h with h1 h2
        · exact CreateOrderOutcome.noConfusion (congrArg Prod.fst h)
        · exact CreateOrderOutcome.noConfusion (congrArg Prod.fst h)
        · cases hex : findActiveOrder odb callerId pid with
          | some existing =>
            rw [hex] at h
            exact CreateOrderOutcome.noConfusion (congrArg Prod.fst h)
          | none =>
            rw [hex] at h
            simp only [Prod.mk.injEq, CreateOrderOutcome.created.injEq] at h
            refine ⟨pid, project, rfl, hproj, ?_⟩
            rw [← h.1.2]
  · intro req2 hpid hbill
    rcases req with ⟨rp, rb, ra⟩
    rcases req2 with ⟨rp2, rb2, ra2⟩
    simp only [] at hpid hbill
    subst hpid
    subst hbill
    rfl

/-- Witness for C8: two concrete requests for project 1 differing only
in a client-supplied amount of 999 produce the same order, whose amount
is the stored price 100, not 999. -/
theorem createOrder_amount_server_computed_witness :
    createOrder [(1, sampleProject)] [] 2
        { projectId := some 1, billingDetails := none, amount := some 999 } 7 =
      createOrder [(1, sampleProject)] [] 2
        { projectId := some 1, billingDetails := none, amount := none } 7 ∧
    ∃ pid project, (some 1 : Option Nat) = some pid ∧
      findById [(1, sampleProject)] pid = some project ∧
      (100 : Nat) = project.price := by
  have h := createOrder_amount_server_computed [(1, sampleProject)] [] 2 7
    { projectId := some 1, billingDetails := none, amount := none }
  refine ⟨h.2 { projectId := some 1, billingDetails := none, amount := some 999 } rfl rfl, ?_⟩
  exact ⟨1, sampleProject, rfl, rfl, rfl⟩

/-! ## C9: read visibility -/

/-- C9 counterexample: a project whose flat status is approved while its
nested metadata.status is still pending is included by the list query
for an unauthenticated caller but refused by the single-item fetch, so
the two endpoints do not apply one visibility function. -/
theorem visibility_policies_disagree :
    listVisible none flatOnlyApproved = true ∧
    byIdVisible none flatOnlyApproved = false := by
  decide

/-- C9 (amended): single-item visibility implies list visibility, and
the two coincide exactly on projects whose flat approved status entails
the nested one; on its own terms the single-item fetch grants an
unauthenticated caller exactly the metadata-approved projects, an admin
everything, and any other authenticated caller exactly the
metadata-approved projects plus their own. -/
theorem visibility_amended (caller : Option User) (p : Project) :
    (byIdVisible caller p = true → listVisible caller p = true) ∧
    ((p.status = .approved → p.metadata_status = .approved) →
      byIdVisible caller p = listVisible caller p) ∧
    (byIdVisible none p = true ↔ p.metadata_status = .approved) ∧
    (∀ u : User, u.role = .admin → byIdVisible (some u) p = true) ∧
    (∀ u : User, u.role ≠ .admin →
      (byIdVisible (some u) p = true ↔
        p.metadata_status = .approved ∨ u.id = p.owner)) := by
  refine ⟨?_, ?_, ?_, ?_, ?_⟩
  · cases caller with
    | none =>
      simp only [byIdVisible, listVisible]
      intro h
      simp at h
      simp [h]
    | some u =>
      by_cases hr : u.role = .admin
      · simp [byIdVisible, listVisible, hr]
      · simp only [byIdVisible, listVisible]
        rw [if_neg hr]
        simp [hr]
        tauto
  · intro himp
    cases caller with
    | none =>
      simp only [byIdVisible, listVisible]
      by_cases h1 : p.status = .approved
      · simp [h1, himp h1]
      · by_cases h2 : p.metadata_status = .approved <;> simp [h1, h2]
    | some u =>
      by_cases hr : u.role = .admin
      · simp [byIdVisible, listVisible, hr]
      · simp only [byIdVisible, listVisible]
        rw [if_neg hr]
        by_cases h1 : p.status = .approved
        · simp [hr, h1, himp h1]
        · by_cases h2 : p.metadata_status = .approved <;>
            by_cases h3 : u.id = p.owner <;>
            simp [hr, h1, h2, h3] <;>
            exact fun hh => h3 hh.symm
  · simp [byIdVisible]
  · intro u hr
    simp [byIdVisible, hr]
  · intro u hr
    simp [byIdVisible, hr]

/-- Witness for C9: the amended statement evaluated at the pending-only
project and the unauthenticated caller. -/
theorem visibility_amended_witness :
    byIdVisible none draftProject = false ∧
    byIdVisible none sampleProject = true ∧
    listVisible none sampleProject = true := by
  have h := visibility_amended none sampleProject
  exact ⟨by decide, h.2.2.1.mpr (by decide), h.1 (h.2.2.1.mpr (by decide))⟩

end DevMark
